import Mathlib

/-!
Shallow embedding of the gosec secret-store tool (src/gosec.go).

The program walks `<root>/files`, decrypts every `*.gpg` file found there with
a private PGP key ring, and either greps the plaintext line by line or streams
it verbatim to standard output.  External collaborators (the openpgp library,
the filesystem, the passphrase prompt, the regex engine) are modelled as
explicit function parameters; the logic of gosec itself (path expansion,
identity resolution, the decrypt orchestration, the prompt callback, the walk
callback and the line scanner) is transcribed definition by definition from
the Go source.
-/

namespace Gosec

/-! ### Path Resolver (`expandPath`, gosec.go lines 221-233) -/

/-- Model of Go `path.IsAbs`: a slash path is absolute iff it starts with `/`
(`len(path) > 0 && path[0] == '/'`). -/
def pathIsAbs (p : String) : Bool :=
  match p.data with
  | '/' :: _ => true
  | _ => false

/-- Model of Go `p[:2] == "~/"` for a string of byte length at least 2: the
first two bytes are `~` and `/` exactly when the first two characters are
(`~` and `/` are one-byte characters, and a multi-byte character's leading
byte can equal neither). -/
def hasTildeSlash (p : String) : Bool :=
  match p.data with
  | '~' :: '/' :: _ => true
  | _ => false

/-- Replace the first occurrence of the character `pat` by `rep` in a
character list. -/
def replaceCharFirst (pat : Char) (rep : List Char) : List Char → List Char
  | [] => []
  | c :: rest => if c = pat then rep ++ rest else c :: replaceCharFirst pat rep rest

/-- Model of Go `strings.Replace(s, "~", rep, 1)`: replace the first
occurrence of `~` by `rep`, if any. -/
def replaceFirst (s : String) (pat : Char) (rep : String) : String :=
  String.mk (replaceCharFirst pat rep.data s.data)

/-- Embedding of `expandPath` (gosec.go 221-233).

`currentUserHome` models `user.Current()`: `.ok home` when the current user's
home directory resolves, `.error e` otherwise.  The Go code evaluates `p[:2]`
before comparing with `"~/"`; slicing a string of byte length `< 2` panics,
which we model as `none`.  A returned value is `some r` where `r` is the
`(string, error)` pair of the Go function. -/
def expandPath (currentUserHome : Except String String) (p : String) :
    Option (Except String String) :=
  if pathIsAbs p then some (Except.ok p)
  else if p.utf8ByteSize < 2 then none
  else if hasTildeSlash p then
    match currentUserHome with
    | Except.error e => some (Except.error e)
    | Except.ok home => some (Except.ok (replaceFirst p '~' home))
  else some (Except.ok p)

/-! ### Key ring and identity resolution (`GetKeyByEmail`, gosec.go 177-186) -/

/-- One identity bound to a key entity; only the e-mail is consulted. -/
structure Identity where
  email : String
deriving DecidableEq

/-- One key entity of an openpgp key ring, abstracted to its identity set
(the only attribute `GetKeyByEmail` consults). -/
structure Entity where
  identities : List Identity
deriving DecidableEq

/-- Embedding of `SecureContext.GetKeyByEmail` (gosec.go 177-186): scan the
ring in order; for the first entity one of whose identities carries the
recipient e-mail, return that entity; otherwise return `nil` (`none`).
(Go iterates the `Identities` map in unspecified order, but only the
existence of a matching identity within an entity matters.) -/
def getKeyByEmail (ring : List Entity) (email : String) : Option Entity :=
  match ring with
  | [] => none
  | entity :: rest =>
    if entity.identities.any (fun ident => ident.email == email) then some entity
    else getKeyByEmail rest email

/-! ### Private keys and the key-unlock callback (gosec.go 207-216) -/

/-- A candidate private key offered by `openpgp.ReadMessage` to the prompt
callback; `decryptPriv pass` models `k.PrivateKey.Decrypt([]byte(pass))`. -/
structure PKey where
  decryptPriv : String → Except String Unit

/-- Embedding of the `promptCallback` closure of the current code
(gosec.go 207-216).  The Go loop body returns on its first iteration in both
branches: on the first key a decryption failure returns that error, success
returns nil; the `"invalid password or no private key"` fall-through is
reached only when the key list is empty. -/
def promptCallback (password : String) (keys : List PKey) : Except String Unit :=
  match keys with
  | [] => Except.error "invalid password or no private key"
  | k :: _ =>
    match k.decryptPriv password with
    | Except.error e => Except.error e
    | Except.ok _ => Except.ok ()

/-- Embedding of the `promptCallback` closure of the earlier snapshot kept in
the repository (gosec.go 374-382): try each candidate key in turn, succeed on
the first key that unlocks, and return the
`"invalid password or no private key"` error only when none does. -/
def promptCallbackPrev (password : String) (keys : List PKey) : Except String Unit :=
  match keys with
  | [] => Except.error "invalid password or no private key"
  | k :: rest =>
    match k.decryptPriv password with
    | Except.ok _ => Except.ok ()
    | Except.error _ => promptCallbackPrev password rest

example : expandPath (Except.ok "/home/u") "~/.gnupg/secring.gpg"
    = some (Except.ok "/home/u/.gnupg/secring.gpg") := by rfl
example : expandPath (Except.ok "/home/u") "" = none := by rfl
example : getKeyByEmail [⟨[⟨"a@b"⟩]⟩, ⟨[⟨"c@d"⟩]⟩] "c@d" = some ⟨[⟨"c@d"⟩]⟩ := by decide

/-! ### Decrypt Engine (`DecryptFile`, gosec.go 188-219) -/

/-- The armored block returned by `armor.Decode`; only its `Body` stream is
consumed by `ReadMessage`. -/
structure ArmorBlock where
  body : String
deriving DecidableEq

/-- The `openpgp.MessageDetails` result of `ReadMessage`, abstracted to its
`UnverifiedBody` plaintext stream (as the raw byte string). -/
structure MessageDetails where
  body : String
deriving DecidableEq

/-- The distinct error values `DecryptFile` can return, in source order:
the `os.Open` error, the `armor.Decode` error, the
`errors.New("Invalid Recipient")` value, and the `openpgp.ReadMessage`
error. -/
inductive DecErr where
  | openErr : String → DecErr
  | armorErr : String → DecErr
  | invalidRecipient : DecErr
  | readMessageErr : String → DecErr
deriving DecidableEq

/-- Embedding of `SecureContext.DecryptFile` (gosec.go 188-219).

`openRes` models `os.Open(filePath)`, `armorRes` models
`armor.Decode(secfile)`, and `readMessage` models
`openpgp.ReadMessage(block.Body, ents, promptCallback, nil)` — an external
collaborator receiving the candidate entity list and the key-unlock
callback.  The `regex` parameter is accepted and ignored, as in the source.
The steps run in source order: open, armor-decode, resolve the recipient
entity (failing with `Invalid Recipient` when `GetKeyByEmail` returns nil),
build the single-entity candidate list, and only then call `ReadMessage`. -/
def decryptFile (regex : Option (String → Bool))
    (openRes : Except String Unit) (armorRes : Except String ArmorBlock)
    (ring : List Entity) (email password : String)
    (readMessage : ArmorBlock → List Entity → (List PKey → Except String Unit) →
      Except String MessageDetails) :
    Except DecErr MessageDetails :=
  let _ := regex
  match openRes with
  | Except.error e => Except.error (DecErr.openErr e)
  | Except.ok _ =>
    match armorRes with
    | Except.error e => Except.error (DecErr.armorErr e)
    | Except.ok block =>
      match getKeyByEmail ring email with
      | none => Except.error DecErr.invalidRecipient
      | some recipientEntity =>
        match readMessage block [recipientEntity] (promptCallback password) with
        | Except.error e => Except.error (DecErr.readMessageErr e)
        | Except.ok md => Except.ok md

/-! ### Line scanning (`bufio.Scanner` with `ScanLines`, gosec.go 146-158) -/

/-- Model of `bufio.dropCR` on a reversed line: strip one trailing `\r`. -/
def dropCR (revLine : List Char) : List Char :=
  match revLine with
  | '\r' :: rest => rest
  | cs => cs

/-- Tokenization loop of `bufio.Scanner` with the `ScanLines` split function:
each `\n` ends a line (with one trailing `\r` stripped); a non-empty
remainder at end of input is a final, non-terminated line; input ending in
`\n` produces no extra empty line.  `cur` holds the current line reversed. -/
def splitLinesAux (cur : List Char) : List Char → List String
  | [] => if cur = [] then [] else [String.mk (dropCR cur).reverse]
  | c :: rest =>
    if c = '\n' then String.mk (dropCR cur).reverse :: splitLinesAux [] rest
    else splitLinesAux (c :: cur) rest

/-- The sequence of lines `scanner.Text()` yields over a plaintext stream.
(The 64 KiB `bufio` token-size limit is not modelled.) -/
def splitLines (s : String) : List String :=
  splitLinesAux [] s.data

/-- Embedding of the scanning loop of `FindRegex` (gosec.go 142-162), with
the printed characters accumulated into a string: state `lineNumber`,
`first` and `foundMatch` as in the source; on a matching line print the file
path first if `first`, then `lineNumber:line`; after the loop print one
empty line if `foundMatch`. -/
def scanLoop (m : String → Bool) (path : String) :
    List String → Nat → Bool → Bool → String
  | [], _, _, foundMatch => if foundMatch then "\n" else ""
  | line :: rest, lineNumber, first, foundMatch =>
    if m line then
      (if first then path ++ "\n" else "")
        ++ toString (lineNumber + 1) ++ ":" ++ line ++ "\n"
        ++ scanLoop m path rest (lineNumber + 1) false true
    else
      scanLoop m path rest (lineNumber + 1) first foundMatch

/-- The per-file output of the walk callback once decryption succeeded
(gosec.go 141-165): with a compiled regex, run the scanning loop over the
lines of the plaintext; with none, copy the plaintext verbatim to standard
output (`io.Copy(os.Stdout, md.UnverifiedBody)`). -/
def fileOutput (regex : Option (String → Bool)) (path : String)
    (md : MessageDetails) : String :=
  match regex with
  | some m => scanLoop m path (splitLines md.body) 0 true false
  | none => md.body

/-! ### Tree walk (`FindRegex`, gosec.go 114-175) -/

/-- Model of Go `filepath.Ext` on a file's base name: the suffix of the last
element beginning at its final dot, or the empty string when the last element
has no dot.  The scan from the right stops at a path separator. -/
def goExtRev (revName : List Char) : String :=
  match revName with
  | [] => ""
  | c :: rest =>
    if c = '/' then ""
    else if c = '.' then String.mk ('.' :: [])
    else
      match goExtRev rest with
      | "" => ""
      | e => e ++ String.mk [c]

/-- Go `filepath.Ext(name)`. -/
def goExt (name : String) : String :=
  goExtRev name.data.reverse

/-- One entry handed to the walk callback by `filepath.Walk`, in traversal
order: its path, its base name (`fi.Name()`), whether it is a directory, and
the error `filepath.Walk` itself supplies for it (nil for a readable
entry). -/
structure WalkEntry where
  path : String
  name : String
  isDir : Bool
  walkErr : Option String
deriving DecidableEq

/-- The error values a `FindRegex` run can end with: a
`regexp.Compile` error, an error supplied by the walk infrastructure, or a
`DecryptFile` error. -/
inductive RunErr where
  | regexErr : String → RunErr
  | walkInfraErr : String → RunErr
  | decryptErr : DecErr → RunErr
deriving DecidableEq

/-- Observable outcome of a walk: the file paths passed to `DecryptFile`
(i.e. opened and decrypted), in order; the characters printed to standard
output; and the error the walk returned, if any. -/
structure RunResult where
  attempted : List String
  out : String
  err : Option RunErr
deriving DecidableEq

/-- Embedding of the `fileCallback` closure of `FindRegex` (gosec.go
125-168), instrumented with the list of paths it passes to `DecryptFile`:
a walk-infrastructure error is returned as-is; directories and files whose
extension is not `.gpg` are skipped with no output, no error and no
decryption attempt; otherwise the file is decrypted (`decrypt` abstracts
`ctx.DecryptFile` with the ring, e-mail, password and prompt callback
already threaded) and its output is produced by `fileOutput`. -/
def fileCallback (decrypt : String → Except DecErr MessageDetails)
    (regex : Option (String → Bool)) (e : WalkEntry) :
    List String × String × Option RunErr :=
  match e.walkErr with
  | some msg => ([], "", some (RunErr.walkInfraErr msg))
  | none =>
    if e.isDir then ([], "", none)
    else if goExt e.name ≠ ".gpg" then ([], "", none)
    else
      match decrypt e.path with
      | Except.error er => ([e.path], "", some (RunErr.decryptErr er))
      | Except.ok md => ([e.path], fileOutput regex e.path md, none)

/-- Model of `filepath.Walk` over the entries of the walked subtree in
traversal order: run the callback on each entry; the first entry on which the
callback returns a non-nil error aborts the walk, and that error is the
walk's result.  Outputs and decryption attempts accumulate in order. -/
def walk (cb : WalkEntry → List String × String × Option RunErr) :
    List WalkEntry → RunResult
  | [] => ⟨[], "", none⟩
  | e :: rest =>
    match cb e with
    | (att, out, some w) => ⟨att, out, some w⟩
    | (att, out, none) =>
      let r := walk cb rest
      ⟨att ++ r.attempted, out ++ r.out, r.err⟩

/-! ### `path.Join` and `path.Clean` (used at gosec.go 170) -/

/-- Split a character list at every `/`. -/
def splitSlash (cur : List Char) : List Char → List (List Char)
  | [] => [cur.reverse]
  | c :: rest =>
    if c = '/' then cur.reverse :: splitSlash [] rest
    else splitSlash (c :: cur) rest

/-- Rejoin path elements with `/`. -/
def joinSlash : List (List Char) → List Char
  | [] => []
  | [x] => x
  | x :: rest => x ++ '/' :: joinSlash rest

/-- Element processing of Go `path.Clean`: drop empty and `.` elements; `..`
pops the previous element, stays at the root of a rooted path, and
accumulates at the front of an unrooted path. -/
def cleanSegs (rooted : Bool) (acc : List (List Char)) :
    List (List Char) → List (List Char)
  | [] => acc.reverse
  | seg :: rest =>
    if seg = [] ∨ seg = ['.'] then cleanSegs rooted acc rest
    else if seg = ['.', '.'] then
      match acc with
      | [] => cleanSegs rooted (if rooted then [] else [seg]) rest
      | q :: tl =>
        if q = ['.', '.'] then cleanSegs rooted (seg :: acc) rest
        else cleanSegs rooted tl rest
    else cleanSegs rooted (seg :: acc) rest

/-- Model of Go `path.Clean`. -/
def pathClean (p : String) : String :=
  match p.data with
  | [] => "."
  | c :: _ =>
    let rooted := c = '/'
    let joined := joinSlash (cleanSegs rooted [] (splitSlash [] p.data))
    if rooted then
      match joined with
      | [] => "/"
      | cs => String.mk ('/' :: cs)
    else
      match joined with
      | [] => "."
      | cs => String.mk cs

/-- Model of Go `path.Join(a, b)`: join the elements from the first
non-empty one with `/` and clean the result; all-empty elements give the
empty string. -/
def pathJoin (a b : String) : String :=
  if a.data = [] then (if b.data = [] then "" else pathClean b)
  else pathClean (a ++ "/" ++ b)

/-- Embedding of `SecureContext.FindRegex` (gosec.go 114-175).

`compile` models `regexp.Compile` (an external collaborator returning a
matcher or an error), `decrypt` abstracts `ctx.DecryptFile`, and `tree`
models the filesystem: the entries `filepath.Walk` visits under a given
path, in traversal order.  A non-empty regex string is compiled (a compile
error is returned at once, before any walking); then the subtree rooted at
`path.Join(ctx.DirectoryRoot, "files")` is walked with `fileCallback`. -/
def findRegex (compile : String → Except String (String → Bool))
    (decrypt : String → Except DecErr MessageDetails)
    (tree : String → List WalkEntry) (root : String) (regexStr : String) :
    RunResult :=
  if regexStr.length > 0 then
    match compile regexStr with
    | Except.error e => ⟨[], "", some (RunErr.regexErr e)⟩
    | Except.ok m => walk (fileCallback decrypt (some m)) (tree (pathJoin root "files"))
  else
    walk (fileCallback decrypt none) (tree (pathJoin root "files"))

example : goExt "logins.gpg" = ".gpg" := by rfl
example : goExt "README" = "" := by rfl
example : pathJoin "project1" "files" = "project1/files" := by rfl
example : pathJoin "./a//b/" "files" = "a/b/files" := by rfl
example : splitLines "alpha\nbeta\naccountA=xyz\n" = ["alpha", "beta", "accountA=xyz"] := by rfl
example : splitLines "a\r\nb" = ["a", "b"] := by rfl

/-! ### Specification-side definitions

These follow the spec's words (for the refinement claims about the search
output format), to be compared against the source-derived definitions
above. -/

/-- Concatenation of a list of printed chunks. -/
def strConcat : List String → String
  | [] => ""
  | s :: rest => s ++ strConcat rest

/-- Pair each line with its line number, 1-based when started at 1. -/
def numberFrom (n : Nat) : List String → List (Nat × String)
  | [] => []
  | l :: rest => (n, l) :: numberFrom (n + 1) rest

/-- One matching line printed as `<lineNumber>:<lineText>`. -/
def fmtMatch (p : Nat × String) : String := toString p.1 ++ ":" ++ p.2 ++ "\n"

/-- The search-mode output format the spec describes for one file: nothing
when no line matches; otherwise the file path once as a header, then every
matching line as `<lineNumber>:<lineText>` with 1-based numbering in line
order, then exactly one blank separator line. -/
def scanOutputSpec (m : String → Bool) (path : String) (lines : List String) :
    String :=
  let matched := (numberFrom 1 lines).filter (fun p => m p.2)
  if matched.isEmpty then ""
  else path ++ "\n" ++ strConcat (matched.map fmtMatch) ++ "\n"

/-! ### Helper lemmas about the scanning loop -/

theorem scanLoop_after_first (m : String → Bool) (path : String)
    (lines : List String) (n : Nat) :
    scanLoop m path lines n false true
      = strConcat (((numberFrom (n + 1) lines).filter (fun p => m p.2)).map fmtMatch)
          ++ "\n" := by
  induction lines generalizing n with
  | nil => rfl
  | cons line rest ih =>
    cases hm : m line with
    | true =>
      simp only [scanLoop, hm, if_true, numberFrom, List.filter_cons, List.map_cons,
        strConcat, fmtMatch, ih]
      simp [String.append_assoc]
    | false =>
      simp only [scanLoop, hm, if_false, numberFrom, List.filter_cons, ih]
      simp

theorem scanLoop_eq_spec_from (m : String → Bool) (path : String)
    (lines : List String) (n : Nat) :
    scanLoop m path lines n true false
      = (if ((numberFrom (n + 1) lines).filter (fun p => m p.2)).isEmpty then ""
         else path ++ "\n"
           ++ strConcat ((((numberFrom (n + 1) lines).filter
                (fun p => m p.2)).map fmtMatch))
           ++ "\n") := by
  induction lines generalizing n with
  | nil => rfl
  | cons line rest ih =>
    cases hm : m line with
    | true =>
      simp only [scanLoop, hm, if_true, numberFrom, List.filter_cons,
        scanLoop_after_first, List.map_cons, strConcat, fmtMatch]
      simp [String.append_assoc]
    | false =>
      simp only [scanLoop, hm, if_false, numberFrom, List.filter_cons, ih]
      simp

theorem scanLoop_eq_spec (m : String → Bool) (path : String)
    (lines : List String) :
    scanLoop m path lines 0 true false = scanOutputSpec m path lines := by
  have h := scanLoop_eq_spec_from m path lines 0
  simpa [scanOutputSpec] using h

/-! ### Helper lemmas about the walk -/

theorem walk_cons_ok (cb : WalkEntry → List String × String × Option RunErr)
    (e : WalkEntry) (he : cb e = ([], "", none)) (rest : List WalkEntry) :
    walk cb (e :: rest) = walk cb rest := by
  simp only [walk, he]
  rfl

theorem walk_cons_err (cb : WalkEntry → List String × String × Option RunErr)
    (e : WalkEntry) (att : List String) (out : String) (msg : RunErr)
    (he : cb e = (att, out, some msg)) (rest : List WalkEntry) :
    walk cb (e :: rest) = ⟨att, out, some msg⟩ := by
  simp only [walk, he]

theorem walk_cons_acc (cb : WalkEntry → List String × String × Option RunErr)
    (a : WalkEntry) (att : List String) (out : String)
    (ha : cb a = (att, out, none)) (l : List WalkEntry) :
    walk cb (a :: l)
      = ⟨att ++ (walk cb l).attempted, out ++ (walk cb l).out, (walk cb l).err⟩ := by
  simp only [walk, ha]

theorem walk_drop_silent (cb : WalkEntry → List String × String × Option RunErr)
    (e : WalkEntry) (he : cb e = ([], "", none)) (pre post : List WalkEntry) :
    walk cb (pre ++ e :: post) = walk cb (pre ++ post) := by
  induction pre with
  | nil =>
    rw [List.nil_append, List.nil_append]
    exact walk_cons_ok cb e he post
  | cons a pre ih =>
    rcases ha : cb a with ⟨att, out, err⟩
    cases err with
    | some w =>
      rw [List.cons_append, List.cons_append, walk_cons_err cb a att out w ha,
        walk_cons_err cb a att out w ha]
    | none =>
      rw [List.cons_append, List.cons_append, walk_cons_acc cb a att out ha,
        walk_cons_acc cb a att out ha, ih]

theorem walk_abort_at (cb : WalkEntry → List String × String × Option RunErr)
    (pre : List WalkEntry) (e : WalkEntry) (post : List WalkEntry) (msg : RunErr)
    (hpre : ∀ x ∈ pre, (cb x).2.2 = none) (he : (cb e).2.2 = some msg) :
    walk cb (pre ++ e :: post) = walk cb (pre ++ [e])
      ∧ (walk cb (pre ++ e :: post)).err = some msg := by
  induction pre with
  | nil =>
    rcases hc : cb e with ⟨att, out, err⟩
    have herr : err = some msg := by rw [hc] at he; exact he
    subst herr
    rw [List.nil_append, List.nil_append, walk_cons_err cb e att out msg hc,
      walk_cons_err cb e att out msg hc]
    exact ⟨rfl, rfl⟩
  | cons a pre ih =>
    have ha2 : (cb a).2.2 = none := hpre a (by simp)
    rcases ha : cb a with ⟨att, out, err⟩
    have herr : err = none := by rw [ha] at ha2; exact ha2
    subst herr
    have ih2 := ih (fun x hx => hpre x (by simp [hx]))
    rw [List.cons_append, List.cons_append, walk_cons_acc cb a att out ha,
      walk_cons_acc cb a att out ha, ih2.1]
    exact ⟨rfl, ih2.1 ▸ ih2.2⟩

/-! ### Helper lemmas about identity resolution -/

theorem getKeyByEmail_cons (entity : Entity) (rest : List Entity)
    (email : String) :
    getKeyByEmail (entity :: rest) email
      = (if entity.identities.any (fun ident => ident.email == email) then some entity
         else getKeyByEmail rest email) := rfl

theorem getKeyByEmail_none_iff (ring : List Entity) (email : String) :
    getKeyByEmail ring email = none
      ↔ ∀ e ∈ ring, ∀ i ∈ e.identities, i.email ≠ email := by
  induction ring with
  | nil => simp [getKeyByEmail]
  | cons entity rest ih =>
    rw [getKeyByEmail_cons]
    by_cases h : entity.identities.any (fun ident => ident.email == email) = true
    · rw [if_pos h]
      constructor
      · intro hc; exact absurd hc (by simp)
      · intro hall
        rcases List.any_eq_true.mp h with ⟨i, hi, hieq⟩
        exact absurd (beq_iff_eq.mp hieq) (hall entity (by simp) i hi)
    · rw [if_neg h, ih]
      constructor
      · intro hall e he i hi
        rcases List.mem_cons.mp he with rfl | he'
        · intro heq
          exact h (List.any_eq_true.mpr ⟨i, hi, beq_iff_eq.mpr heq⟩)
        · exact hall e he' i hi
      · intro hall e he i hi
        exact hall e (List.mem_cons_of_mem _ he) i hi

theorem getKeyByEmail_some_matches (ring : List Entity) (email : String)
    (ent : Entity) (h : getKeyByEmail ring email = some ent) :
    ∃ i ∈ ent.identities, i.email = email := by
  induction ring with
  | nil => exact absurd h (by simp [getKeyByEmail])
  | cons entity rest ih =>
    rw [getKeyByEmail_cons] at h
    by_cases hc : entity.identities.any (fun ident => ident.email == email) = true
    · rw [if_pos hc] at h
      rcases Option.some.injEq .. ▸ h with rfl
      rcases List.any_eq_true.mp hc with ⟨i, hi, hieq⟩
      exact ⟨i, hi, beq_iff_eq.mp hieq⟩
    · rw [if_neg hc] at h
      exact ih h

theorem all_not_eq_not_any (l : List Identity) (email : String) :
    l.all (fun i => !(i.email == email)) = !(l.any (fun i => i.email == email)) := by
  induction l with
  | nil => rfl
  | cons a l ih => simp [List.all_cons, List.any_cons, ih]

/-! ### Claim theorems -/

/-- C7: identity resolution over a key ring is a linear scan in ring order
over each entity's identity set, returning the first entity containing a
matching identity (so the first-encountered entity wins when several share
the identity string), and it returns `nil` exactly when no entity
matches. -/
theorem getKeyByEmail_linear_first_match (ring : List Entity) (email : String) :
    getKeyByEmail ring email
      = ring.find? (fun e => e.identities.any (fun i => i.email == email))
    ∧ (getKeyByEmail ring email).isNone
      = ring.all (fun e => e.identities.all (fun i => !(i.email == email))) := by
  constructor
  · induction ring with
    | nil => rfl
    | cons entity rest ih =>
      rw [getKeyByEmail_cons]
      by_cases h : entity.identities.any (fun i => i.email == email) = true
      · rw [if_pos h,
          @List.find?_cons_of_pos _ (fun e => e.identities.any fun i => i.email == email)
            entity rest h]
      · rw [if_neg h,
          @List.find?_cons_of_neg _ (fun e => e.identities.any fun i => i.email == email)
            entity rest h, ih]
  · induction ring with
    | nil => rfl
    | cons entity rest ih =>
      rw [getKeyByEmail_cons, List.all_cons, all_not_eq_not_any]
      by_cases h : entity.identities.any (fun i => i.email == email) = true
      · rw [if_pos h, h]
        simp
      · have hb : entity.identities.any (fun i => i.email == email) = false :=
          Bool.not_eq_true _ ▸ h
        rw [if_neg h, hb, ih]
        simp

/-- C5 (evaluation at the failing input): `expandPath` follows the spec's
contract on absolute paths, on `~/`-prefixed paths (with and without a
resolvable home directory) and on other relative paths of length at least 2,
but on a non-absolute path shorter than two bytes the `p[:2]` slice is out
of bounds and the function panics (modelled as `none`) instead of returning
the path unmodified. -/
theorem expandPath_short_relative_panics :
    expandPath (Except.ok "/home/u") "" = none
    ∧ expandPath (Except.ok "/home/u") "a" = none
    ∧ expandPath (Except.ok "/home/u") "/etc/secring.gpg"
        = some (Except.ok "/etc/secring.gpg")
    ∧ expandPath (Except.ok "/home/u") "~/.gnupg/secring.gpg"
        = some (Except.ok "/home/u/.gnupg/secring.gpg")
    ∧ expandPath (Except.error "user: no home directory") "~/.gnupg/secring.gpg"
        = some (Except.error "user: no home directory")
    ∧ expandPath (Except.ok "/home/u") "rel/secring.gpg"
        = some (Except.ok "rel/secring.gpg") :=
  ⟨rfl, rfl, rfl, rfl, rfl, rfl⟩

/-- C10 (counterexample): the path-expansion function is not total — on the
one-character relative path `"a"` the two-character prefix inspection
`p[:2]` goes out of bounds (a panic, modelled as `none`). -/
theorem expandPath_not_total : expandPath (Except.ok "/home/u") "a" = none := rfl

/-- C10 (amended): the path-expansion function is total on every input
string that is absolute or at least two bytes long; only on shorter
non-absolute strings does the two-character prefix inspection go out of
bounds. -/
theorem expandPath_total_when_in_bounds (home : Except String String)
    (p : String) (h : pathIsAbs p = true ∨ 2 ≤ p.utf8ByteSize) :
    (expandPath home p).isSome = true := by
  by_cases habs : pathIsAbs p = true
  · simp [expandPath, habs]
  · have hsize : 2 ≤ p.utf8ByteSize := h.resolve_left habs
    have hlt : ¬ p.utf8ByteSize < 2 := Nat.not_lt.mpr hsize
    cases hts : hasTildeSlash p with
    | true => cases home <;> simp [expandPath, habs, hlt, hts]
    | false => simp [expandPath, habs, hlt, hts]

/-- Witness for the amended C10 at a concrete in-bounds input. -/
theorem expandPath_total_when_in_bounds_witness :
    (expandPath (Except.ok "/home/u") "ab").isSome = true :=
  expandPath_total_when_in_bounds (Except.ok "/home/u") "ab"
    (Or.inr (by decide))

/-- C1 (evaluation at the failing input): with a candidate key list whose
first key does not unlock with the passphrase and whose second key does, the
current `promptCallback` returns the first key's decryption error without
ever attempting the second key, and in particular does not return the
`"invalid password or no private key"` error the claim describes; the
earlier snapshot's callback (`promptCallbackPrev`) attempts each candidate
and succeeds on the same input. -/
theorem promptCallback_stops_at_first_key :
    promptCallback "pw"
        [⟨fun _ => Except.error "private key checksum failure"⟩,
         ⟨fun _ => Except.ok ()⟩]
      = Except.error "private key checksum failure"
    ∧ promptCallback "pw"
        [⟨fun _ => Except.error "private key checksum failure"⟩,
         ⟨fun _ => Except.ok ()⟩]
      ≠ Except.error "invalid password or no private key"
    ∧ (PKey.mk (fun _ => Except.ok ())).decryptPriv "pw" = Except.ok ()
    ∧ promptCallbackPrev "pw"
        [⟨fun _ => Except.error "private key checksum failure"⟩,
         ⟨fun _ => Except.ok ()⟩]
      = Except.ok () := by
  refine ⟨rfl, ?_, rfl, rfl⟩
  intro hcontra
  rw [promptCallback] at hcontra
  simp only [Except.error.injEq] at hcontra
  exact absurd hcontra (by decide)

/-- C2: in search mode, for an encrypted file whose decryption succeeds,
the walk callback attempts exactly that file and prints precisely the
spec-described format — the file path once before the first matching line,
each matching line as `<lineNumber>:<lineText>` with 1-based numbering in
line order, one blank separator line after the last match, and nothing at
all when no line matches. -/
theorem searchMode_per_file_output
    (decrypt : String → Except DecErr MessageDetails) (m : String → Bool)
    (e : WalkEntry) (md : MessageDetails)
    (h1 : e.walkErr = none) (h2 : e.isDir = false)
    (h3 : goExt e.name = ".gpg") (h4 : decrypt e.path = Except.ok md) :
    fileCallback decrypt (some m) e
      = ([e.path], scanOutputSpec m e.path (splitLines md.body), none)
    ∧ (((numberFrom 1 (splitLines md.body)).filter (fun p => m p.2)).isEmpty = true →
        scanOutputSpec m e.path (splitLines md.body) = "") := by
  constructor
  · simp [fileCallback, h1, h2, h3, h4, fileOutput, scanLoop_eq_spec]
  · intro hm
    simp only [scanOutputSpec, hm, if_true]

/-- Witness for C2, at the spec's own example: lines `alpha`, `beta`,
`accountA=xyz` and a matcher for `accountA=xyz` print the path once, then
`3:accountA=xyz`, then one blank line. -/
theorem searchMode_per_file_output_witness :
    fileCallback (fun _ => Except.ok ⟨"alpha\nbeta\naccountA=xyz\n"⟩)
        (some (fun l => l == "accountA=xyz"))
        ⟨"project1/files/logins.gpg", "logins.gpg", false, none⟩
      = (["project1/files/logins.gpg"],
         "project1/files/logins.gpg\n3:accountA=xyz\n\n", none) := by
  have h := searchMode_per_file_output
    (fun _ => Except.ok ⟨"alpha\nbeta\naccountA=xyz\n"⟩)
    (fun l => l == "accountA=xyz")
    ⟨"project1/files/logins.gpg", "logins.gpg", false, none⟩
    ⟨"alpha\nbeta\naccountA=xyz\n"⟩ rfl rfl rfl rfl
  rw [h.1]
  rfl

/-- C3: with an empty regex string, `FindRegex` walks with no compiled
regex, and the walk callback streams the decrypted plaintext of each
encrypted file verbatim — no line scanning, no path header, no line
numbers, no separator line. -/
theorem emptyRegex_passthrough
    (compile : String → Except String (String → Bool))
    (decrypt : String → Except DecErr MessageDetails)
    (tree : String → List WalkEntry) (root : String)
    (e : WalkEntry) (md : MessageDetails)
    (h1 : e.walkErr = none) (h2 : e.isDir = false)
    (h3 : goExt e.name = ".gpg") (h4 : decrypt e.path = Except.ok md) :
    findRegex compile decrypt tree root ""
      = walk (fileCallback decrypt none) (tree (pathJoin root "files"))
    ∧ fileCallback decrypt none e = ([e.path], md.body, none) := by
  constructor
  · rfl
  · simp [fileCallback, h1, h2, h3, h4, fileOutput]

/-- Witness for C3 at a concrete encrypted file: the output is
byte-identical to the decrypted plaintext. -/
theorem emptyRegex_passthrough_witness :
    fileCallback (fun _ => Except.ok ⟨"alpha\nbeta\n"⟩) none
        ⟨"project1/files/a.gpg", "a.gpg", false, none⟩
      = (["project1/files/a.gpg"], "alpha\nbeta\n", none) := by
  have h := emptyRegex_passthrough (fun _ => Except.ok (fun _ => false))
    (fun _ => Except.ok ⟨"alpha\nbeta\n"⟩) (fun _ => []) "project1"
    ⟨"project1/files/a.gpg", "a.gpg", false, none⟩ ⟨"alpha\nbeta\n"⟩
    rfl rfl rfl rfl
  exact h.2

/-- C6: with the file opened and armor-decoded, `DecryptFile` fails with the
`Invalid Recipient` error exactly when no entity of the private ring has an
identity whose e-mail equals the recipient e-mail; in that case the result
does not depend on the message-read collaborator at all (it is never
invoked) and no plaintext is produced. -/
theorem invalidRecipient_iff_no_matching_identity
    (regex : Option (String → Bool)) (block : ArmorBlock)
    (ring : List Entity) (email password : String)
    (rm rm' : ArmorBlock → List Entity → (List PKey → Except String Unit) →
      Except String MessageDetails) :
    (decryptFile regex (Except.ok ()) (Except.ok block) ring email password rm
        = Except.error DecErr.invalidRecipient
      ↔ ∀ e ∈ ring, ∀ i ∈ e.identities, i.email ≠ email)
    ∧ ((∀ e ∈ ring, ∀ i ∈ e.identities, i.email ≠ email) →
        decryptFile regex (Except.ok ()) (Except.ok block) ring email password rm
          = decryptFile regex (Except.ok ()) (Except.ok block) ring email
              password rm') := by
  cases hk : getKeyByEmail ring email with
  | none =>
    constructor
    · constructor
      · intro _
        exact (getKeyByEmail_none_iff ring email).mp hk
      · intro _
        simp [decryptFile, hk]
    · intro _
      simp [decryptFile, hk]
  | some ent =>
    constructor
    · constructor
      · intro hres
        exfalso
        rcases hrm : rm block [ent] (promptCallback password) with e | md <;>
          simp [decryptFile, hk, hrm] at hres
      · intro hall
        exfalso
        have hn := (getKeyByEmail_none_iff ring email).mpr hall
        rw [hk] at hn
        cases hn
    · intro hall
      exfalso
      have := (getKeyByEmail_none_iff ring email).mpr hall
      rw [hk] at this
      cases this

/-- Witness for C6: a ring holding only an entity for a different e-mail
makes `DecryptFile` fail with `Invalid Recipient`. -/
theorem invalidRecipient_iff_no_matching_identity_witness :
    decryptFile none (Except.ok ()) (Except.ok ⟨"ciphertext"⟩)
        [⟨[⟨"other@example.com"⟩]⟩] "alice@example.com" "pw"
        (fun _ _ _ => Except.ok ⟨"plain"⟩)
      = Except.error DecErr.invalidRecipient := by
  have h := invalidRecipient_iff_no_matching_identity none ⟨"ciphertext"⟩
    [⟨[⟨"other@example.com"⟩]⟩] "alice@example.com" "pw"
    (fun _ _ _ => Except.ok ⟨"plain"⟩) (fun _ _ _ => Except.ok ⟨"plain"⟩)
  exact h.1.mpr (by decide)

/-- C9: whenever the recipient resolves, `DecryptFile` hands the
message-read collaborator exactly the singleton list of the resolved entity
(never the full private ring): the result is determined by the
collaborator's answer on that one-element list, the list has length one,
and every entity in it carries an identity with the recipient e-mail — so a
private key whose identities lack that e-mail is never offered. -/
theorem readMessage_gets_single_resolved_entity
    (regex : Option (String → Bool)) (block : ArmorBlock)
    (ring : List Entity) (email password : String) (ent : Entity)
    (rm : ArmorBlock → List Entity → (List PKey → Except String Unit) →
      Except String MessageDetails)
    (h : getKeyByEmail ring email = some ent) :
    decryptFile regex (Except.ok ()) (Except.ok block) ring email password rm
      = (match rm block [ent] (promptCallback password) with
         | Except.error e => Except.error (DecErr.readMessageErr e)
         | Except.ok md => Except.ok md)
    ∧ ([ent] : List Entity).length = 1
    ∧ ∀ e ∈ ([ent] : List Entity), ∃ i ∈ e.identities, i.email = email := by
  refine ⟨by simp [decryptFile, h], rfl, ?_⟩
  intro e he
  rw [List.mem_singleton] at he
  subst he
  exact getKeyByEmail_some_matches ring email e h

/-- Witness for C9 at a one-entity ring whose identity matches. -/
theorem readMessage_gets_single_resolved_entity_witness :
    decryptFile none (Except.ok ()) (Except.ok ⟨"ciphertext"⟩)
        [⟨[⟨"alice@example.com"⟩]⟩] "alice@example.com" "pw"
        (fun _ _ _ => Except.ok ⟨"plain"⟩)
      = Except.ok ⟨"plain"⟩ := by
  have h := readMessage_gets_single_resolved_entity none ⟨"ciphertext"⟩
    [⟨[⟨"alice@example.com"⟩]⟩] "alice@example.com" "pw"
    ⟨[⟨"alice@example.com"⟩]⟩ (fun _ _ _ => Except.ok ⟨"plain"⟩) (by decide)
  rw [h.1]

/-- C4: the first error the walk callback reports — for any of its error
sources (a walk-infrastructure error, or an open, armor-decode,
invalid-recipient or message-read failure from `DecryptFile`) — aborts the
remaining walk: the run is identical to one in which the entries after the
failing one do not exist (so no later file is opened or decrypted), and the
error is the one the walk returns to the caller. -/
theorem walk_aborts_on_first_error
    (decrypt : String → Except DecErr MessageDetails)
    (regex : Option (String → Bool)) (pre : List WalkEntry) (e : WalkEntry)
    (post : List WalkEntry) (msg : RunErr)
    (hpre : ∀ x ∈ pre, (fileCallback decrypt regex x).2.2 = none)
    (he : (fileCallback decrypt regex e).2.2 = some msg) :
    walk (fileCallback decrypt regex) (pre ++ e :: post)
        = walk (fileCallback decrypt regex) (pre ++ [e])
      ∧ (walk (fileCallback decrypt regex) (pre ++ e :: post)).err = some msg :=
  walk_abort_at (fileCallback decrypt regex) pre e post msg hpre he

/-- Witness for C4: a failing decryption on the second entry stops the walk
before the third entry, which is never opened or decrypted. -/
theorem walk_aborts_on_first_error_witness :
    walk (fileCallback
          (fun p => if p == "d/files/bad.gpg"
            then Except.error (DecErr.armorErr "armor: invalid data")
            else Except.ok ⟨"body\n"⟩) none)
        [⟨"d/files/a.gpg", "a.gpg", false, none⟩,
         ⟨"d/files/bad.gpg", "bad.gpg", false, none⟩,
         ⟨"d/files/z.gpg", "z.gpg", false, none⟩]
      = walk (fileCallback
          (fun p => if p == "d/files/bad.gpg"
            then Except.error (DecErr.armorErr "armor: invalid data")
            else Except.ok ⟨"body\n"⟩) none)
        [⟨"d/files/a.gpg", "a.gpg", false, none⟩,
         ⟨"d/files/bad.gpg", "bad.gpg", false, none⟩] := by
  have h := walk_aborts_on_first_error
    (fun p => if p == "d/files/bad.gpg"
      then Except.error (DecErr.armorErr "armor: invalid data")
      else Except.ok ⟨"body\n"⟩) none
    [⟨"d/files/a.gpg", "a.gpg", false, none⟩]
    ⟨"d/files/bad.gpg", "bad.gpg", false, none⟩
    [⟨"d/files/z.gpg", "z.gpg", false, none⟩]
    (RunErr.decryptErr (DecErr.armorErr "armor: invalid data"))
    (by intro x hx; rw [List.mem_singleton] at hx; subst hx; rfl)
    (by rfl)
  exact h.1

/-- C8: the search walk is over exactly the subtree rooted at
`path.Join(root, "files")` (with or without a regex); every directory entry
and every file whose extension is not `.gpg` is skipped silently — no
output, no error, no decryption attempt — and contributes nothing to the
run; walking an empty `files/` subtree succeeds with no attempts, no output
and no error. -/
theorem walk_skips_dirs_and_foreign_files
    (compile : String → Except String (String → Bool))
    (decrypt : String → Except DecErr MessageDetails)
    (tree : String → List WalkEntry) (root regexStr : String) :
    (findRegex compile decrypt tree root ""
        = walk (fileCallback decrypt none) (tree (pathJoin root "files")))
    ∧ (∀ m, regexStr.length > 0 → compile regexStr = Except.ok m →
        findRegex compile decrypt tree root regexStr
          = walk (fileCallback decrypt (some m)) (tree (pathJoin root "files")))
    ∧ (∀ r, walk (fileCallback decrypt r) [] = ⟨[], "", none⟩)
    ∧ (∀ r e, e.walkErr = none → e.isDir = true →
        fileCallback decrypt r e = ([], "", none))
    ∧ (∀ r e, e.walkErr = none → e.isDir = false → goExt e.name ≠ ".gpg" →
        fileCallback decrypt r e = ([], "", none))
    ∧ (∀ r e pre post, fileCallback decrypt r e = ([], "", none) →
        walk (fileCallback decrypt r) (pre ++ e :: post)
          = walk (fileCallback decrypt r) (pre ++ post)) := by
  refine ⟨rfl, ?_, fun _ => rfl, ?_, ?_, ?_⟩
  · intro m hlen hc
    simp [findRegex, hlen, hc]
  · intro r e h1 h2
    simp [fileCallback, h1, h2]
  · intro r e h1 h2 h3
    simp [fileCallback, h1, h2, h3]
  · intro r e pre post hcb
    exact walk_drop_silent (fileCallback decrypt r) e hcb pre post

/-- Witness for C8: over an empty tree the empty-regex run succeeds with no
output and no error, and a directory entry and a `.txt` file are both
skipped silently. -/
theorem walk_skips_dirs_and_foreign_files_witness :
    findRegex (fun _ => Except.ok (fun _ => false))
        (fun _ => Except.ok ⟨"body\n"⟩) (fun _ => []) "project1" ""
      = ⟨[], "", none⟩
    ∧ fileCallback (fun _ => Except.ok ⟨"body\n"⟩) none
        ⟨"project1/files/sub", "sub", true, none⟩ = ([], "", none)
    ∧ fileCallback (fun _ => Except.ok ⟨"body\n"⟩) none
        ⟨"project1/files/readme.txt", "readme.txt", false, none⟩
      = ([], "", none) := by
  have h := walk_skips_dirs_and_foreign_files
    (fun _ => Except.ok (fun _ => false)) (fun _ => Except.ok ⟨"body\n"⟩)
    (fun _ => []) "project1" "accountA"
  refine ⟨h.1.trans (h.2.2.1 none), ?_, ?_⟩
  · exact h.2.2.2.1 none ⟨"project1/files/sub", "sub", true, none⟩ rfl rfl
  · exact h.2.2.2.2.1 none
      ⟨"project1/files/readme.txt", "readme.txt", false, none⟩ rfl rfl
      (by decide)

end Gosec
